import Mathlib

/-!
Shallow embedding of the SBS-Charter-Rebuild core: the divider resolver
(`js/exportCopy/helpers/segmentMath.js`), the structural integrity engine
(`js/structureLogic.js`), the position-derived grouping of the preview/Word
overview builders, the id-linked grouping of `js/export/exportHTML.js`, and
the row-height scaling pass of `js/previewPage.js`.

JavaScript numbers that can be `Infinity` (the value of
`Math.min(...[])`) are modelled as `WithTop ℤ`; paragraph indexes are `ℕ`.
-/

namespace SBS

/-- A paragraph of the loaded book: only the fields the core reads. -/
structure Paragraph where
  range : String
  title : String
  content : String
deriving DecidableEq, Repr

/-- A segment divider (`{id, title, paragraphIndexes, sectionId}`). -/
structure Segment where
  id : ℕ
  title : String
  paragraphIndexes : List ℕ
  sectionId : Option ℕ
deriving DecidableEq, Repr

/-- A section divider (`{id, title, paragraphIndexes, divisionId}`). -/
structure Section where
  id : ℕ
  title : String
  paragraphIndexes : List ℕ
  divisionId : Option ℕ
deriving DecidableEq, Repr

/-- A division divider (`{id, title, paragraphIndexes}`). -/
structure Division where
  id : ℕ
  title : String
  paragraphIndexes : List ℕ
deriving DecidableEq, Repr

/-- The id counters of `state.ids` (`sec` stands for the `section` field,
which is a reserved word in Lean). -/
structure Ids where
  division : ℕ
  sec : ℕ
  segment : ℕ
deriving DecidableEq, Repr

/-- The mutable aggregate of `state.js`, restricted to the fields the core
mutates or reads. -/
structure State where
  paragraphs : List Paragraph
  divisions : List Division
  sections : List Section
  segments : List Segment
  ids : Ids
deriving DecidableEq, Repr

/-- The initial state: empty lists, all id counters 0. -/
def emptyState : State :=
  { paragraphs := [], divisions := [], sections := [], segments := [],
    ids := { division := 0, sec := 0, segment := 0 } }

/-! ### Divider resolver (`segmentMath.js`) -/

/-- `Math.min(...l)` over a list of paragraph indexes: the minimum as an
integer, `⊤` (JavaScript `Infinity`) when the list is empty. -/
def minIdx (l : List ℕ) : WithTop ℤ :=
  l.foldr (fun p acc => min ((p : ℤ) : WithTop ℤ) acc) ⊤

/-- `computeSegStart(seg)`: `Math.min(...(seg.paragraphIndexes || [Infinity]))`. -/
def computeSegStart (seg : Segment) : WithTop ℤ :=
  minIdx seg.paragraphIndexes

/-- Start of a section divider, `Math.min(...sec.paragraphIndexes)`. -/
def secStart (sec : Section) : WithTop ℤ :=
  minIdx sec.paragraphIndexes

/-- Start of a division divider, `Math.min(...div.paragraphIndexes)`. -/
def divStart (d : Division) : WithTop ℤ :=
  minIdx d.paragraphIndexes

/-- The generic `end` computation of the divider resolver (spec 4.2),
parameterized by the start function of the divider type: the first divider
in the sorted list whose start is strictly greater than this divider's
start determines `next.start - 1`, else `totalParagraphs - 1`. -/
def resolvedEnd {α : Type} (f : α → WithTop ℤ) (a : α) (sorted : List α)
    (totalParagraphs : ℕ) : WithTop ℤ :=
  match sorted.find? (fun s => decide (f a < f s)) with
  | some nxt => (f nxt).map (fun n => n - 1)
  | none => (((totalParagraphs : ℤ) - 1 : ℤ) : WithTop ℤ)

/-- `computeSegEnd(seg, sortedSegments, totalParagraphs)` of `segmentMath.js`. -/
def computeSegEnd (seg : Segment) (sortedSegments : List Segment)
    (totalParagraphs : ℕ) : WithTop ℤ :=
  match sortedSegments.find? (fun s => decide (computeSegStart seg < computeSegStart s)) with
  | some nxt => (computeSegStart nxt).map (fun n => n - 1)
  | none => (((totalParagraphs : ℤ) - 1 : ℤ) : WithTop ℤ)

/-- Resolved end of a section divider (the resolver of spec 4.2 applied to
the section list, as the overview builders do positionally). -/
def computeSecEnd (sec : Section) (sortedSections : List Section)
    (totalParagraphs : ℕ) : WithTop ℤ :=
  resolvedEnd secStart sec sortedSections totalParagraphs

/-- Resolved end of a division divider. -/
def computeDivEnd (d : Division) (sortedDivisions : List Division)
    (totalParagraphs : ℕ) : WithTop ℤ :=
  resolvedEnd divStart d sortedDivisions totalParagraphs

/-- `[...segments].sort((a, b) => computeSegStart(a) - computeSegStart(b))`:
a stable sort ascending by start (JavaScript `Array.prototype.sort` is
stable, and a stable sort of a list under a total preorder is unique, so
any stable sort embeds it). -/
def sortSegments (l : List Segment) : List Segment :=
  l.insertionSort (fun a b => computeSegStart a ≤ computeSegStart b)

/-- The sections sorted ascending by start (`sectionsSorted` of the
overview builders). -/
def sortSections (l : List Section) : List Section :=
  l.insertionSort (fun a b => secStart a ≤ secStart b)

/-- The divisions sorted ascending by start (`divisionsSorted`). -/
def sortDivisions (l : List Division) : List Division :=
  l.insertionSort (fun a b => divStart a ≤ divStart b)

/-! ### Range model (`humanRangeFromIdx`) -/

/-- Split a character list at every occurrence of `sep`, JavaScript
`String.prototype.split` with a one-character separator. -/
def splitChar (sep : Char) : List Char → List (List Char)
  | [] => [[]]
  | c :: rest =>
    let r := splitChar sep rest
    if c = sep then [] :: r
    else (c :: r.headD []) :: r.tail

/-- JavaScript `s.split(sep)` for a one-character separator. -/
def jsSplit (s : String) (sep : Char) : List String :=
  (splitChar sep s.data).map String.mk

/-- `humanRangeFromIdx(startIdx, endIdx, paragraphs)` of
`exportCopy/helpers/segmentMath.js`: left part of the start range and right
part of the end range, joined with an en-dash; `""` when either index is
out of bounds. -/
def humanRangeFromIdx (startIdx endIdx : ℕ) (paragraphs : List Paragraph) : String :=
  match paragraphs.get? startIdx, paragraphs.get? endIdx with
  | some sp, some ep =>
    let startPart := (jsSplit sp.range '–').headD ""
    let endRaw := ep.range
    let endPart := if 2 ≤ (jsSplit endRaw '–').length
      then (jsSplit endRaw '–').getD 1 "" else endRaw
    startPart ++ "–" ++ endPart
  | _, _ => ""

/-- `humanRangeFromIdx(startIdx, endIdx, paragraphs)` of `js/previewPage.js`:
returns the start range unchanged when it equals the end range, otherwise
joins the two whole ranges with an en-dash. -/
def previewHumanRangeFromIdx (startIdx endIdx : ℕ) (paragraphs : List Paragraph) : String :=
  match paragraphs.get? startIdx, paragraphs.get? endIdx with
  | some sp, some ep =>
    if sp.range = ep.range then sp.range
    else sp.range ++ "–" ++ ep.range
  | _, _ => ""

/-! ### Position-derived and id-linked grouping -/

/-- The scanning loop shared by `findDivisionForSegment` and
`findSectionForSegment` (previewPage.js / the Word overview builder): walk
the sorted list keeping the last divider whose start is `≤ x`, break at the
first divider whose start exceeds `x`. -/
def lastLE {α : Type} (f : α → WithTop ℤ) (x : WithTop ℤ) :
    List α → Option α → Option α
  | [], acc => acc
  | d :: rest, acc => if f d ≤ x then lastLE f x rest (some d) else acc

/-- `findDivisionForSegment(segStart)`: the last division of the sorted
list whose start is `≤ segStart`, `none` when there is none. -/
def findDivisionForSegment (divisionsSorted : List Division) (segStart : WithTop ℤ) :
    Option Division :=
  lastLE divStart segStart divisionsSorted none

/-- `findSectionForSegment(segStart)`. -/
def findSectionForSegment (sectionsSorted : List Section) (segStart : WithTop ℤ) :
    Option Section :=
  lastLE secStart segStart sectionsSorted none

/-- `sectionsById[seg.sectionId]` of `exportHTML.js`: id-linked lookup of a
segment's section. -/
def idLinkedSection (sections : List Section) (seg : Segment) : Option Section :=
  seg.sectionId.bind (fun sid => sections.find? (fun s => s.id == sid))

/-- `sec ? divisionsById[sec.divisionId] : null` of `exportHTML.js`:
id-linked lookup of a segment's division through its section. -/
def idLinkedDivision (sections : List Section) (divisions : List Division)
    (seg : Segment) : Option Division :=
  (idLinkedSection sections seg).bind
    (fun sec => sec.divisionId.bind (fun did => divisions.find? (fun d => d.id == did)))

/-! ### Structural integrity engine (`structureLogic.js`)

Each `add*` function of the source recurses once, guarded by a
`fromRecursion` flag; the depth-1 recursive call (flag set) is embedded as
a separate `*Rec` function, and the top-level entry dispatches on the flag,
which is exactly the source's call graph. -/

/-- Body of `addSegment` when invoked with `fromRecursion = true`: guarded
append of a fresh segment anchored at `parIndex`, no cascade. -/
def addSegmentRec (st : State) (parIndex : ℕ) : State :=
  if st.segments.any (fun s => s.paragraphIndexes.contains parIndex) then st
  else
    { st with
      ids := { st.ids with segment := st.ids.segment + 1 },
      segments := st.segments ++
        [{ id := st.ids.segment + 1, title := "", paragraphIndexes := [parIndex],
           sectionId := none }] }

/-- `addSegment(parIndex, fromRecursion)`: no-op if a segment already
claims the index, else append a fresh segment, then (top-level call only)
cascade a segment at paragraph 0. -/
def addSegment (st : State) (parIndex : ℕ) (fromRecursion : Bool) : State :=
  if fromRecursion then addSegmentRec st parIndex
  else
    if st.segments.any (fun s => s.paragraphIndexes.contains parIndex) then st
    else
      let st1 : State :=
        { st with
          ids := { st.ids with segment := st.ids.segment + 1 },
          segments := st.segments ++
            [{ id := st.ids.segment + 1, title := "", paragraphIndexes := [parIndex],
               sectionId := none }] }
      if parIndex ≠ 0 then addSegmentRec st1 0 else st1

/-- The in-place `segment.sectionId = sectionId` mutation of `addSection`:
update the first segment claiming `parIndex`, only when its `sectionId` is
null. -/
def linkFirstSegment (segs : List Segment) (parIndex : ℕ) (sectionId : ℕ) :
    List Segment :=
  match segs with
  | [] => []
  | s :: rest =>
    if s.paragraphIndexes.contains parIndex then
      (if s.sectionId = none then { s with sectionId := some sectionId } else s) :: rest
    else s :: linkFirstSegment rest parIndex sectionId

/-- Unguarded body of `addSection`: push the new section, then ensure a
supporting segment at the same index (reuse-and-link or create-linked). -/
def addSectionCore (st : State) (parIndex : ℕ) (divisionId : Option ℕ) : State :=
  let sectionId := st.ids.sec + 1
  let st1 : State :=
    { st with
      ids := { st.ids with sec := sectionId },
      sections := st.sections ++
        [{ id := sectionId, title := "", paragraphIndexes := [parIndex],
           divisionId := divisionId }] }
  match st1.segments.find? (fun s => s.paragraphIndexes.contains parIndex) with
  | none =>
    { st1 with
      ids := { st1.ids with segment := st1.ids.segment + 1 },
      segments := st1.segments ++
        [{ id := st1.ids.segment + 1, title := "", paragraphIndexes := [parIndex],
           sectionId := some sectionId }] }
  | some _ =>
    { st1 with segments := linkFirstSegment st1.segments parIndex sectionId }

/-- Body of `addSection` when invoked with `fromRecursion = true`. -/
def addSectionRec (st : State) (parIndex : ℕ) (divisionId : Option ℕ) : State :=
  if st.sections.any (fun s => s.paragraphIndexes.contains parIndex) then st
  else addSectionCore st parIndex divisionId

/-- `addSection(parIndex, fromDivision, divisionId, fromRecursion)`:
`fromDivision` only gates the (unmodelled) autosave. -/
def addSection (st : State) (parIndex : ℕ) (fromDivision : Bool)
    (divisionId : Option ℕ) (fromRecursion : Bool) : State :=
  if fromRecursion then addSectionRec st parIndex divisionId
  else
    if st.sections.any (fun s => s.paragraphIndexes.contains parIndex) then st
    else
      let st1 := addSectionCore st parIndex divisionId
      if parIndex ≠ 0 then addSectionRec st1 0 divisionId else st1

/-- Unguarded body of `addDivision`: push the division, then
unconditionally create a supporting section via `addSection` with
`fromDivision = true` and `fromRecursion = false` (so that inner call
itself cascades a section at paragraph 0). -/
def addDivisionCore (st : State) (parIndex : ℕ) : State :=
  let divisionId := st.ids.division + 1
  let st1 : State :=
    { st with
      ids := { st.ids with division := divisionId },
      divisions := st.divisions ++
        [{ id := divisionId, title := "", paragraphIndexes := [parIndex] }] }
  addSection st1 parIndex true (some divisionId) false

/-- Body of `addDivision` when invoked with `fromRecursion = true`. -/
def addDivisionRec (st : State) (parIndex : ℕ) : State :=
  if st.divisions.any (fun d => d.paragraphIndexes.contains parIndex) then st
  else addDivisionCore st parIndex

/-- `addDivision(parIndex, fromRecursion)`. -/
def addDivision (st : State) (parIndex : ℕ) (fromRecursion : Bool) : State :=
  if fromRecursion then addDivisionRec st parIndex
  else
    if st.divisions.any (fun d => d.paragraphIndexes.contains parIndex) then st
    else
      let st1 := addDivisionCore st parIndex
      if parIndex ≠ 0 then addDivisionRec st1 0 else st1

/-- `sectionHasFoundation(section)`: some segment links to the section by
id or shares a paragraph index with it. -/
def sectionHasFoundation (segments : List Segment) (sec : Section) : Bool :=
  segments.any (fun seg =>
    seg.sectionId == some sec.id ||
    seg.paragraphIndexes.any (fun p => sec.paragraphIndexes.contains p))

/-- `divisionHasWalls(division)`. -/
def divisionHasWalls (sections : List Section) (d : Division) : Bool :=
  sections.any (fun sec =>
    sec.divisionId == some d.id ||
    sec.paragraphIndexes.any (fun p => d.paragraphIndexes.contains p))

/-- `cleanupSections()`: drop every section without foundation. -/
def cleanupSections (st : State) : State :=
  { st with sections := st.sections.filter (fun sec => sectionHasFoundation st.segments sec) }

/-- `cleanupDivisions()`: drop every division without walls. -/
def cleanupDivisions (st : State) : State :=
  { st with divisions := st.divisions.filter (fun d => divisionHasWalls st.sections d) }

/-- `deleteSegment(id)`: no-op when the id is absent, else remove the
segment and run the bottom-up cleanup. -/
def deleteSegment (st : State) (id : ℕ) : State :=
  if st.segments.any (fun s => s.id == id) then
    cleanupDivisions (cleanupSections
      { st with segments := st.segments.filter (fun s => s.id != id) })
  else st

/-- `deleteSection(id)`. -/
def deleteSection (st : State) (id : ℕ) : State :=
  if st.sections.any (fun s => s.id == id) then
    cleanupDivisions { st with sections := st.sections.filter (fun s => s.id != id) }
  else st

/-- `deleteDivision(id)`: unconditional filter, no cascade. -/
def deleteDivision (st : State) (id : ℕ) : State :=
  { st with divisions := st.divisions.filter (fun d => d.id != id) }

/-! ### Reachable states -/

/-- The six public operations of the structural integrity engine, with the
argument defaults their UI call sites use. -/
inductive Op where
  | addSeg (p : ℕ)
  | addSec (p : ℕ)
  | addDiv (p : ℕ)
  | delSeg (id : ℕ)
  | delSec (id : ℕ)
  | delDiv (id : ℕ)
deriving DecidableEq, Repr

/-- Apply one public operation. -/
def applyOp (st : State) : Op → State
  | .addSeg p => addSegment st p false
  | .addSec p => addSection st p false none false
  | .addDiv p => addDivision st p false
  | .delSeg id => deleteSegment st id
  | .delSec id => deleteSection st id
  | .delDiv id => deleteDivision st id

/-- Run a sequence of public operations. -/
def run (ops : List Op) (st : State) : State :=
  ops.foldl applyOp st

/-- The anchor sets of a divider list are pairwise disjoint. -/
def AnchorsDisjoint {α : Type} (idxs : α → List ℕ) (l : List α) : Prop :=
  l.Pairwise (fun a b => ∀ p, p ∈ idxs a → p ∉ idxs b)

/-- The disjointness invariant of spec 3 for a whole state. -/
def StateDisjoint (st : State) : Prop :=
  AnchorsDisjoint Segment.paragraphIndexes st.segments ∧
  AnchorsDisjoint Section.paragraphIndexes st.sections ∧
  AnchorsDisjoint Division.paragraphIndexes st.divisions

/-! ### Row-height scaling pass (`buildOverviewPage` of `previewPage.js`) -/

/-- `heightPerParagraph` (px). -/
def heightPerParagraph : ℚ := 25

/-- `minRowHeight` (px). -/
def minRowHeight : ℚ := 40

/-- `maxTableHeight` (px): the page budget. -/
def maxTableHeight : ℚ := 880

/-- `headerHeight` (px). -/
def headerHeight : ℚ := 40

/-- A row's natural height: `Math.max(minRowHeight, paragraphCount * heightPerParagraph)`. -/
def naturalHeight (paragraphCount : ℕ) : ℚ :=
  max minRowHeight (paragraphCount * heightPerParagraph)

/-- `totalNaturalHeight`: the natural heights of all rows plus the header. -/
def totalNaturalHeight (counts : List ℕ) : ℚ :=
  (counts.map naturalHeight).sum + headerHeight

/-- `heightScale`: the uniform squeeze factor, 1.0 when everything fits. -/
def heightScale (counts : List ℕ) : ℚ :=
  if maxTableHeight < totalNaturalHeight counts then
    (maxTableHeight - headerHeight) / (totalNaturalHeight counts - headerHeight)
  else 1

/-- `rowHeight = Math.round(naturalHeight * heightScale)`. -/
def rowHeight (counts : List ℕ) (paragraphCount : ℕ) : ℤ :=
  round (naturalHeight paragraphCount * heightScale counts)

/-! ## Helper lemmas -/

theorem linkFirstSegment_map_idx (segs : List Segment) (parIndex sectionId : ℕ) :
    (linkFirstSegment segs parIndex sectionId).map Segment.paragraphIndexes =
      segs.map Segment.paragraphIndexes := by
  induction segs with
  | nil => rfl
  | cons s rest ih =>
    rw [linkFirstSegment]
    by_cases h : s.paragraphIndexes.contains parIndex
    · rw [if_pos h]
      by_cases h2 : s.sectionId = none <;> simp [h2]
    · rw [if_neg h]
      simp [ih]

theorem exists_idx_iff_of_map_eq {l₁ l₂ : List Segment}
    (h : l₁.map Segment.paragraphIndexes = l₂.map Segment.paragraphIndexes) (q : ℕ) :
    (∃ sg ∈ l₁, q ∈ sg.paragraphIndexes) ↔ ∃ sg ∈ l₂, q ∈ sg.paragraphIndexes := by
  constructor
  · rintro ⟨sg, hm, hq⟩
    have : sg.paragraphIndexes ∈ l₂.map Segment.paragraphIndexes := by
      rw [← h]; exact List.mem_map_of_mem _ hm
    rcases List.mem_map.mp this with ⟨sg2, hm2, he⟩
    exact ⟨sg2, hm2, he ▸ hq⟩
  · rintro ⟨sg, hm, hq⟩
    have : sg.paragraphIndexes ∈ l₁.map Segment.paragraphIndexes := by
      rw [h]; exact List.mem_map_of_mem _ hm
    rcases List.mem_map.mp this with ⟨sg2, hm2, he⟩
    exact ⟨sg2, hm2, he ▸ hq⟩

theorem addSectionCore_sections (st : State) (parIndex : ℕ) (divisionId : Option ℕ) :
    (addSectionCore st parIndex divisionId).sections =
      st.sections ++ [⟨st.ids.sec + 1, "", [parIndex], divisionId⟩] := by
  unfold addSectionCore
  dsimp only
  split <;> rfl

theorem addSectionCore_exists_at (st : State) (parIndex : ℕ) (divisionId : Option ℕ) :
    ∃ sg ∈ (addSectionCore st parIndex divisionId).segments,
      parIndex ∈ sg.paragraphIndexes := by
  unfold addSectionCore
  dsimp only
  split
  · exact ⟨_, List.mem_append_right _ (List.mem_singleton_self _), List.mem_singleton_self _⟩
  · next seg hfind =>
    have hmem := List.mem_of_find?_eq_some hfind
    have hcl : parIndex ∈ seg.paragraphIndexes := by simpa using List.find?_some hfind
    exact (exists_idx_iff_of_map_eq (linkFirstSegment_map_idx _ parIndex _) parIndex).mpr
      ⟨seg, hmem, hcl⟩

theorem addSectionCore_preserves (st : State) (parIndex : ℕ) (divisionId : Option ℕ)
    (q : ℕ) (h : ∃ sg ∈ st.segments, q ∈ sg.paragraphIndexes) :
    ∃ sg ∈ (addSectionCore st parIndex divisionId).segments, q ∈ sg.paragraphIndexes := by
  unfold addSectionCore
  dsimp only
  split
  · rcases h with ⟨sg, hm, hq⟩
    exact ⟨sg, List.mem_append_left _ hm, hq⟩
  · exact (exists_idx_iff_of_map_eq (linkFirstSegment_map_idx _ parIndex _) q).mpr h

theorem addSectionCore_cascade_guard (st : State) (parIndex : ℕ) (divisionId : Option ℕ)
    (h2 : st.sections.any (fun s => s.paragraphIndexes.contains 0) = false)
    (hp : parIndex ≠ 0) :
    (addSectionCore st parIndex divisionId).sections.any
      (fun s => s.paragraphIndexes.contains 0) = false := by
  rw [addSectionCore_sections]
  simp only [List.any_eq_false] at h2 ⊢
  intro s hs
  rw [List.mem_append] at hs
  rcases hs with hs | hs
  · simpa using h2 s hs
  · rw [List.mem_singleton] at hs
    subst hs
    simpa using fun h => hp h.symm

theorem minIdx_singleton (p : ℕ) : minIdx [p] = ((p : ℤ) : WithTop ℤ) := by
  simp [minIdx]

theorem addDivision_empty_eq (p : ℕ) (hp : p ≠ 0) :
    addDivision emptyState p false =
      { paragraphs := [],
        divisions := [⟨1, "", [p]⟩, ⟨2, "", [0]⟩],
        sections := [⟨1, "", [p], some 1⟩, ⟨2, "", [0], some 1⟩],
        segments := [⟨1, "", [p], some 1⟩, ⟨2, "", [0], some 2⟩],
        ids := ⟨2, 2, 2⟩ } := by
  have h0p : (0 == p) = false := by simp [Ne.symm hp]
  have hp0 : (p == 0) = false := by simp [hp]
  have h0p' : ¬ (0 = p) := fun h => hp h.symm
  simp [addDivision, addDivisionRec, addDivisionCore, addSection, addSectionRec,
    addSectionCore, linkFirstSegment, emptyState, hp, hp0, h0p, h0p', List.contains]

theorem round_le_intCast {x : ℚ} {m : ℤ} (h : x ≤ (m : ℚ)) : round x ≤ m := by
  calc round x = ⌊x + 1 / 2⌋ := round_eq x
    _ ≤ ⌊(m : ℚ) + 1 / 2⌋ := Int.floor_mono (by linarith)
    _ = m + ⌊(1 / 2 : ℚ)⌋ := Int.floor_int_add m _
    _ = m := by norm_num

theorem sum_round_err (l : List ℚ) :
    |(l.map (fun x => ((round x : ℤ) : ℚ))).sum - l.sum| ≤ l.length / 2 := by
  induction l with
  | nil => simp
  | cons x xs ih =>
    simp only [List.map_cons, List.sum_cons, List.length_cons]
    have h1 : |((round x : ℤ) : ℚ) - x| ≤ 1 / 2 := by
      rw [abs_sub_comm]; exact abs_sub_round x
    have h2 : |(((round x : ℤ) : ℚ) + (xs.map (fun x => ((round x : ℤ) : ℚ))).sum) -
        (x + xs.sum)| ≤ 1 / 2 + xs.length / 2 := by
      calc |(((round x : ℤ) : ℚ) + (xs.map (fun x => ((round x : ℤ) : ℚ))).sum) - (x + xs.sum)|
          = |(((round x : ℤ) : ℚ) - x) +
              ((xs.map (fun x => ((round x : ℤ) : ℚ))).sum - xs.sum)| := by ring_nf
        _ ≤ |((round x : ℤ) : ℚ) - x| +
              |(xs.map (fun x => ((round x : ℤ) : ℚ))).sum - xs.sum| := abs_add _ _
        _ ≤ 1 / 2 + xs.length / 2 := add_le_add h1 ih
    calc |(((round x : ℤ) : ℚ) + (xs.map (fun x => ((round x : ℤ) : ℚ))).sum) - (x + xs.sum)|
        ≤ 1 / 2 + xs.length / 2 := h2
      _ = ((xs.length + 1 : ℕ) : ℚ) / 2 := by push_cast; ring

theorem naturalHeight_intCast (c : ℕ) :
    naturalHeight c = ((max 40 ((c : ℤ) * 25) : ℤ) : ℚ) := by
  rw [naturalHeight, minRowHeight, heightPerParagraph]
  rw [Int.cast_max]
  push_cast
  ring_nf

/-! ### Preservation of the anchor-disjointness invariant -/

theorem anchorsDisjoint_nil {α : Type} (idxs : α → List ℕ) :
    AnchorsDisjoint idxs [] :=
  List.Pairwise.nil

theorem anchorsDisjoint_append_singleton {α : Type} (idxs : α → List ℕ) {l : List α}
    {x : α} {p : ℕ} (hl : AnchorsDisjoint idxs l) (hxi : idxs x = [p])
    (hg : ∀ a ∈ l, p ∉ idxs a) : AnchorsDisjoint idxs (l ++ [x]) := by
  rw [AnchorsDisjoint, List.pairwise_append]
  refine ⟨hl, List.pairwise_singleton _ _, ?_⟩
  intro a ha b hb
  rw [List.mem_singleton] at hb
  subst hb
  intro q hqa
  rw [hxi, List.mem_singleton]
  intro he
  exact hg a ha (he ▸ hqa)

theorem anchorsDisjoint_sublist {α : Type} (idxs : α → List ℕ) {l₁ l₂ : List α}
    (h : l₁.Sublist l₂) (hl : AnchorsDisjoint idxs l₂) : AnchorsDisjoint idxs l₁ :=
  hl.sublist h

theorem anchorsDisjoint_of_map_eq {l₁ l₂ : List Segment}
    (h : l₁.map Segment.paragraphIndexes = l₂.map Segment.paragraphIndexes)
    (hl : AnchorsDisjoint Segment.paragraphIndexes l₂) :
    AnchorsDisjoint Segment.paragraphIndexes l₁ := by
  have h2 : List.Pairwise (fun A B : List ℕ => ∀ p, p ∈ A → p ∉ B)
      (l₂.map Segment.paragraphIndexes) := List.pairwise_map.mpr hl
  rw [← h] at h2
  exact List.pairwise_map.mp h2

theorem segments_guard_false {segs : List Segment} {p : ℕ}
    (h : segs.any (fun s => s.paragraphIndexes.contains p) = false) :
    ∀ s ∈ segs, p ∉ s.paragraphIndexes := by
  simpa using h

theorem sections_guard_false {secs : List Section} {p : ℕ}
    (h : secs.any (fun s => s.paragraphIndexes.contains p) = false) :
    ∀ s ∈ secs, p ∉ s.paragraphIndexes := by
  simpa using h

theorem divisions_guard_false {divs : List Division} {p : ℕ}
    (h : divs.any (fun d => d.paragraphIndexes.contains p) = false) :
    ∀ d ∈ divs, p ∉ d.paragraphIndexes := by
  simpa using h

theorem addSegmentRec_disjoint (st : State) (p : ℕ) (h : StateDisjoint st) :
    StateDisjoint (addSegmentRec st p) := by
  rw [addSegmentRec]
  by_cases hg : st.segments.any (fun s => s.paragraphIndexes.contains p) = true
  · rw [if_pos hg]; exact h
  · rw [if_neg hg]
    exact ⟨anchorsDisjoint_append_singleton _ h.1 rfl
      (segments_guard_false (Bool.not_eq_true _ ▸ hg)), h.2.1, h.2.2⟩

theorem addSegment_disjoint (st : State) (p : ℕ) (fr : Bool) (h : StateDisjoint st) :
    StateDisjoint (addSegment st p fr) := by
  rw [addSegment]
  by_cases hfr : fr = true
  · rw [if_pos hfr]; exact addSegmentRec_disjoint st p h
  · rw [if_neg hfr]
    by_cases hg : st.segments.any (fun s => s.paragraphIndexes.contains p) = true
    · rw [if_pos hg]; exact h
    · rw [if_neg hg]
      have h1 : StateDisjoint
          { st with
            ids := { st.ids with segment := st.ids.segment + 1 },
            segments := st.segments ++
              [{ id := st.ids.segment + 1, title := "", paragraphIndexes := [p],
                 sectionId := none }] } :=
        ⟨anchorsDisjoint_append_singleton _ h.1 rfl
          (segments_guard_false (Bool.not_eq_true _ ▸ hg)), h.2.1, h.2.2⟩
      by_cases hp : p ≠ 0
      · rw [if_pos hp]; exact addSegmentRec_disjoint _ 0 h1
      · rw [if_neg hp]; exact h1

theorem addSectionCore_disjoint (st : State) (p : ℕ) (divisionId : Option ℕ)
    (h : StateDisjoint st)
    (hg : st.sections.any (fun s => s.paragraphIndexes.contains p) = false) :
    StateDisjoint (addSectionCore st p divisionId) := by
  have hsec : AnchorsDisjoint Section.paragraphIndexes
      (st.sections ++ [⟨st.ids.sec + 1, "", [p], divisionId⟩]) :=
    anchorsDisjoint_append_singleton _ h.2.1 rfl (sections_guard_false hg)
  rw [addSectionCore]
  dsimp only
  split
  · next hf =>
    rw [List.find?_eq_none] at hf
    refine ⟨?_, hsec, h.2.2⟩
    refine anchorsDisjoint_append_singleton _ h.1 rfl ?_
    intro a ha hpa
    exact hf a ha (by simpa using hpa)
  · exact ⟨anchorsDisjoint_of_map_eq (linkFirstSegment_map_idx _ _ _) h.1, hsec, h.2.2⟩

theorem addSectionRec_disjoint (st : State) (p : ℕ) (divisionId : Option ℕ)
    (h : StateDisjoint st) : StateDisjoint (addSectionRec st p divisionId) := by
  rw [addSectionRec]
  by_cases hg : st.sections.any (fun s => s.paragraphIndexes.contains p) = true
  · rw [if_pos hg]; exact h
  · rw [if_neg hg]
    exact addSectionCore_disjoint st p divisionId h (Bool.not_eq_true _ ▸ hg)

theorem addSection_disjoint (st : State) (p : ℕ) (fd : Bool) (divisionId : Option ℕ)
    (fr : Bool) (h : StateDisjoint st) :
    StateDisjoint (addSection st p fd divisionId fr) := by
  rw [addSection]
  by_cases hfr : fr = true
  · rw [if_pos hfr]; exact addSectionRec_disjoint st p divisionId h
  · rw [if_neg hfr]
    by_cases hg : st.sections.any (fun s => s.paragraphIndexes.contains p) = true
    · rw [if_pos hg]; exact h
    · rw [if_neg hg]
      have h1 := addSectionCore_disjoint st p divisionId h (Bool.not_eq_true _ ▸ hg)
      by_cases hp : p ≠ 0
      · rw [if_pos hp]; exact addSectionRec_disjoint _ 0 divisionId h1
      · rw [if_neg hp]; exact h1

theorem addDivisionCore_disjoint (st : State) (p : ℕ) (h : StateDisjoint st)
    (hg : st.divisions.any (fun d => d.paragraphIndexes.contains p) = false) :
    StateDisjoint (addDivisionCore st p) := by
  rw [addDivisionCore]
  exact addSection_disjoint _ p true (some (st.ids.division + 1)) false
    ⟨h.1, h.2.1,
     anchorsDisjoint_append_singleton _ h.2.2 rfl (divisions_guard_false hg)⟩

theorem addDivisionRec_disjoint (st : State) (p : ℕ) (h : StateDisjoint st) :
    StateDisjoint (addDivisionRec st p) := by
  rw [addDivisionRec]
  by_cases hg : st.divisions.any (fun d => d.paragraphIndexes.contains p) = true
  · rw [if_pos hg]; exact h
  · rw [if_neg hg]
    exact addDivisionCore_disjoint st p h (Bool.not_eq_true _ ▸ hg)

theorem addDivision_disjoint (st : State) (p : ℕ) (fr : Bool) (h : StateDisjoint st) :
    StateDisjoint (addDivision st p fr) := by
  rw [addDivision]
  by_cases hfr : fr = true
  · rw [if_pos hfr]; exact addDivisionRec_disjoint st p h
  · rw [if_neg hfr]
    by_cases hg : st.divisions.any (fun d => d.paragraphIndexes.contains p) = true
    · rw [if_pos hg]; exact h
    · rw [if_neg hg]
      have h1 := addDivisionCore_disjoint st p h (Bool.not_eq_true _ ▸ hg)
      by_cases hp : p ≠ 0
      · rw [if_pos hp]; exact addDivisionRec_disjoint _ 0 h1
      · rw [if_neg hp]; exact h1

theorem cleanupSections_disjoint (st : State) (h : StateDisjoint st) :
    StateDisjoint (cleanupSections st) :=
  ⟨h.1, anchorsDisjoint_sublist _ (List.filter_sublist _) h.2.1, h.2.2⟩

theorem cleanupDivisions_disjoint (st : State) (h : StateDisjoint st) :
    StateDisjoint (cleanupDivisions st) :=
  ⟨h.1, h.2.1, anchorsDisjoint_sublist _ (List.filter_sublist _) h.2.2⟩

theorem deleteSegment_disjoint (st : State) (id : ℕ) (h : StateDisjoint st) :
    StateDisjoint (deleteSegment st id) := by
  rw [deleteSegment]
  by_cases hg : st.segments.any (fun s => s.id == id) = true
  · rw [if_pos hg]
    exact cleanupDivisions_disjoint _ (cleanupSections_disjoint _
      ⟨anchorsDisjoint_sublist _ (List.filter_sublist _) h.1, h.2.1, h.2.2⟩)
  · rw [if_neg hg]; exact h

theorem deleteSection_disjoint (st : State) (id : ℕ) (h : StateDisjoint st) :
    StateDisjoint (deleteSection st id) := by
  rw [deleteSection]
  by_cases hg : st.sections.any (fun s => s.id == id) = true
  · rw [if_pos hg]
    exact cleanupDivisions_disjoint _
      ⟨h.1, anchorsDisjoint_sublist _ (List.filter_sublist _) h.2.1, h.2.2⟩
  · rw [if_neg hg]; exact h

theorem deleteDivision_disjoint (st : State) (id : ℕ) (h : StateDisjoint st) :
    StateDisjoint (deleteDivision st id) :=
  ⟨h.1, h.2.1, anchorsDisjoint_sublist _ (List.filter_sublist _) h.2.2⟩

theorem applyOp_disjoint (st : State) (op : Op) (h : StateDisjoint st) :
    StateDisjoint (applyOp st op) := by
  cases op with
  | addSeg p => exact addSegment_disjoint st p false h
  | addSec p => exact addSection_disjoint st p false none false h
  | addDiv p => exact addDivision_disjoint st p false h
  | delSeg id => exact deleteSegment_disjoint st id h
  | delSec id => exact deleteSection_disjoint st id h
  | delDiv id => exact deleteDivision_disjoint st id h

theorem run_disjoint (ops : List Op) (st : State) (h : StateDisjoint st) :
    StateDisjoint (run ops st) := by
  induction ops generalizing st with
  | nil => exact h
  | cons op ops ih => exact ih _ (applyOp_disjoint st op h)

theorem emptyState_disjoint : StateDisjoint emptyState :=
  ⟨anchorsDisjoint_nil _, anchorsDisjoint_nil _, anchorsDisjoint_nil _⟩

/-! ### Sorted-list machinery for the divider resolver -/

theorem minIdx_finite (l : List ℕ) (h : l ≠ []) :
    ∃ n : ℕ, minIdx l = ((n : ℤ) : WithTop ℤ) ∧ n ∈ l ∧ ∀ q ∈ l, n ≤ q := by
  induction l with
  | nil => exact absurd rfl h
  | cons p rest ih =>
    cases rest with
    | nil =>
      refine ⟨p, ?_, List.mem_singleton_self _, ?_⟩
      · simp [minIdx]
      · intro q hq
        rw [List.mem_singleton.mp hq]
    | cons r rest' =>
      rcases ih (by simp) with ⟨n, hn, hmem, hle⟩
      refine ⟨min p n, ?_, ?_, ?_⟩
      · have : minIdx (p :: r :: rest') = min ((p : ℤ) : WithTop ℤ) (minIdx (r :: rest')) := rfl
        rw [this, hn]
        push_cast
        rfl
      · rcases min_cases p n with ⟨he, _⟩ | ⟨he, _⟩
        · rw [he]; exact List.mem_cons_self _ _
        · rw [he]; exact List.mem_cons_of_mem _ hmem
      · intro q hq
        rcases List.mem_cons.mp hq with hq | hq
        · subst hq; exact min_le_left _ _
        · exact le_trans (min_le_right _ _) (hle q hq)

theorem minIdx_zero (l : List ℕ) (h : 0 ∈ l) : minIdx l = ((0 : ℤ) : WithTop ℤ) := by
  rcases minIdx_finite l (List.ne_nil_of_mem h) with ⟨n, hn, _, hle⟩
  have := hle 0 h
  interval_cases n
  exact hn

theorem insertionSort_strict {α : Type} (f : α → WithTop ℤ) (l : List α)
    (hdist : l.Pairwise (fun a b => f a ≠ f b)) :
    (l.insertionSort (fun a b => f a ≤ f b)).Pairwise (fun a b => f a < f b) := by
  haveI : IsTotal α (fun a b => f a ≤ f b) := ⟨fun a b => le_total _ _⟩
  haveI : IsTrans α (fun a b => f a ≤ f b) := ⟨fun _ _ _ => le_trans⟩
  have hsorted : (l.insertionSort (fun a b => f a ≤ f b)).Pairwise (fun a b => f a ≤ f b) :=
    List.sorted_insertionSort _ l
  have hperm : (l.insertionSort (fun a b => f a ≤ f b)).Perm l :=
    List.perm_insertionSort _ l
  have hdist2 : (l.insertionSort (fun a b => f a ≤ f b)).Pairwise (fun a b => f a ≠ f b) :=
    (hperm.pairwise_iff (fun h => h.symm)).mpr hdist
  exact (hsorted.and hdist2).imp (fun h => lt_of_le_of_ne h.1 h.2)

theorem findNext {α : Type} (f : α → WithTop ℤ) :
    ∀ (m : List α), m.Pairwise (fun a b => f a < f b) →
    ∀ (i : ℕ) (hi : i < m.length),
      m.find? (fun s => decide (f (m.get ⟨i, hi⟩) < f s)) = m.get? (i + 1) := by
  intro m
  induction m with
  | nil => intro _ i hi; simp at hi
  | cons c rest ih =>
    intro hp i hi
    rcases List.pairwise_cons.mp hp with ⟨hhead, htail⟩
    cases i with
    | zero =>
      rw [List.find?_cons_of_neg _ (by simp)]
      cases rest with
      | nil => rfl
      | cons d rest' =>
        rw [List.find?_cons_of_pos _ (by simp [hhead d (List.mem_cons_self d rest')])]
        rfl
    | succ i =>
      have hgm : (c :: rest).get ⟨i + 1, hi⟩ ∈ rest := by
        rw [List.get_cons_succ]
        exact List.get_mem _ _ _
      have hneg : ¬ (decide (f ((c :: rest).get ⟨i + 1, hi⟩) < f c) = true) := by
        simp only [decide_eq_true_eq]
        exact lt_asymm (hhead _ hgm)
      have hstep : List.find? (fun s => decide (f ((c :: rest).get ⟨i + 1, hi⟩) < f s))
            (c :: rest) =
          List.find? (fun s => decide (f ((c :: rest).get ⟨i + 1, hi⟩) < f s)) rest :=
        List.find?_cons_of_neg rest hneg
      rw [hstep]
      have := ih htail i (by simpa using hi)
      rw [List.get_cons_succ]
      exact this

theorem find?_first_le {α : Type} (f : α → WithTop ℤ) (x : WithTop ℤ) :
    ∀ (m : List α), m.Pairwise (fun a b => f a < f b) →
    ∀ b ∈ m, x < f b →
    ∃ t, m.find? (fun s => decide (x < f s)) = some t ∧ f t ≤ f b := by
  intro m
  induction m with
  | nil => intro _ b hb; simp at hb
  | cons c rest ih =>
    intro hp b hb hxb
    rcases List.pairwise_cons.mp hp with ⟨hhead, htail⟩
    by_cases hc : x < f c
    · refine ⟨c, List.find?_cons_of_pos _ (by simpa using hc), ?_⟩
      rcases List.mem_cons.mp hb with h | h
      · rw [h]
      · exact le_of_lt (hhead b h)
    · have hbc : b ∈ rest := by
        rcases List.mem_cons.mp hb with h | h
        · exact absurd (h ▸ hxb) hc
        · exact h
      rcases ih htail b hbc hxb with ⟨t, ht, htle⟩
      exact ⟨t, by rw [List.find?_cons_of_neg _ (by simpa using hc)]; exact ht, htle⟩

theorem computeSegEnd_cons (c : Segment) (rest : List Segment) (seg : Segment) (total : ℕ)
    (h : ¬ (computeSegStart seg < computeSegStart c)) :
    computeSegEnd seg (c :: rest) total = computeSegEnd seg rest total := by
  rw [computeSegEnd, computeSegEnd, List.find?_cons_of_neg _ (by simpa using h)]

theorem computeSegEnd_sorted (m : List Segment) (total : ℕ)
    (hstrict : m.Pairwise (fun a b => computeSegStart a < computeSegStart b))
    (i : ℕ) (hi : i < m.length) :
    computeSegEnd (m.get ⟨i, hi⟩) m total =
      if h : i + 1 < m.length then
        (computeSegStart (m.get ⟨i + 1, h⟩)).map (fun n => n - 1)
      else (((total : ℤ) - 1 : ℤ) : WithTop ℤ) := by
  have hf := findNext computeSegStart m hstrict i hi
  by_cases h : i + 1 < m.length
  · rw [dif_pos h, computeSegEnd, hf, List.get?_eq_get h]
  · rw [dif_neg h, computeSegEnd, hf, List.get?_eq_none.mpr (by omega)]

theorem coverAux (total : ℕ) :
    ∀ m : List Segment,
    m.Pairwise (fun a b => computeSegStart a < computeSegStart b) →
    (∀ s ∈ m, ∃ n : ℕ, computeSegStart s = ((n : ℤ) : WithTop ℤ)) →
    ∀ p : ℕ, p < total →
    ∀ hh : 0 < m.length, computeSegStart (m.get ⟨0, hh⟩) ≤ ((p : ℤ) : WithTop ℤ) →
    ∃ (i : ℕ) (hi : i < m.length),
      computeSegStart (m.get ⟨i, hi⟩) ≤ ((p : ℤ) : WithTop ℤ) ∧
      ((p : ℤ) : WithTop ℤ) ≤ computeSegEnd (m.get ⟨i, hi⟩) m total := by
  intro m
  induction m with
  | nil => intro _ _ p _ hh; simp at hh
  | cons c rest ih =>
    intro hp hfin p hptot hh hhead_le
    rcases List.pairwise_cons.mp hp with ⟨hhead, htail⟩
    cases rest with
    | nil =>
      refine ⟨0, by simp, hhead_le, ?_⟩
      have hnone : List.find?
          (fun s => decide (computeSegStart ([c].get ⟨0, hh⟩) < computeSegStart s)) [c] =
          none := by
        simp
      rw [computeSegEnd, hnone, WithTop.coe_le_coe]
      omega
    | cons d rest' =>
      by_cases hpd : ((p : ℤ) : WithTop ℤ) < computeSegStart d
      · refine ⟨0, by simp, hhead_le, ?_⟩
        have hfd : List.find?
            (fun s => decide (computeSegStart ((c :: d :: rest').get ⟨0, hh⟩) <
              computeSegStart s)) (c :: d :: rest') = some d := by
          rw [List.find?_cons_of_neg _ (by simp)]
          exact List.find?_cons_of_pos _
            (by simp [hhead d (List.mem_cons_self d rest')])
        rw [computeSegEnd, hfd]
        show ((p : ℤ) : WithTop ℤ) ≤ (computeSegStart d).map (fun n => n - 1)
        rcases hfin d (List.mem_cons_of_mem c (List.mem_cons_self d rest')) with ⟨nd, hnd⟩
        rw [hnd] at hpd ⊢
        have hmap : ((((nd : ℤ) : WithTop ℤ)).map (fun n => n - 1)) =
            (((nd : ℤ) - 1 : ℤ) : WithTop ℤ) := rfl
        rw [hmap, WithTop.coe_le_coe]
        rw [WithTop.coe_lt_coe] at hpd
        omega
      · push_neg at hpd
        have hdle : computeSegStart ((d :: rest').get ⟨0, by simp⟩) ≤ ((p : ℤ) : WithTop ℤ) :=
          hpd
        rcases ih htail (fun s hs => hfin s (List.mem_cons_of_mem c hs)) p hptot
            (by simp) hdle with ⟨i, hi, h1, h2⟩
        refine ⟨i + 1, by simpa using Nat.succ_lt_succ hi, ?_, ?_⟩
        · rw [List.get_cons_succ]
          exact h1
        · rw [List.get_cons_succ]
          have hcond : ¬ (computeSegStart ((d :: rest').get ⟨i, hi⟩) < computeSegStart c) :=
            lt_asymm (hhead _ (List.get_mem _ _ _))
          rw [computeSegEnd_cons c (d :: rest') ((d :: rest').get ⟨i, hi⟩) total hcond]
          exact h2

theorem lastLE_none {α : Type} (f : α → WithTop ℤ) (x : WithTop ℤ) (m : List α)
    (acc : Option α) (h : ∀ b ∈ m, ¬ f b ≤ x) : lastLE f x m acc = acc := by
  cases m with
  | nil => rfl
  | cons c rest => rw [lastLE, if_neg (h c (List.mem_cons_self c rest))]

theorem lastLE_eq {α : Type} (f : α → WithTop ℤ) (x : WithTop ℤ) :
    ∀ m : List α, m.Pairwise (fun a b => f a < f b) →
    ∀ a ∈ m, f a ≤ x → (∀ b ∈ m, f b ≤ x → f b ≤ f a) →
    ∀ acc : Option α, lastLE f x m acc = some a := by
  intro m
  induction m with
  | nil => intro _ a ha; simp at ha
  | cons c rest ih =>
    intro hp a ha hax hmax acc
    rcases List.pairwise_cons.mp hp with ⟨hhead, htail⟩
    rcases List.mem_cons.mp ha with rfl | har
    · rw [lastLE, if_pos hax]
      refine lastLE_none f x rest _ ?_
      intro b hb hbx
      exact absurd (hmax b (List.mem_cons_of_mem _ hb) hbx) (not_le_of_lt (hhead b hb))
    · have hcx : f c ≤ x := le_trans (le_of_lt (hhead a har)) hax
      rw [lastLE, if_pos hcx]
      exact ih htail a har hax (fun b hb => hmax b (List.mem_cons_of_mem _ hb)) (some c)

theorem find?_id_unique {α : Type} (idf : α → ℕ) :
    ∀ m : List α, m.Pairwise (fun a b => idf a ≠ idf b) →
    ∀ a ∈ m, m.find? (fun s => idf s == idf a) = some a := by
  intro m
  induction m with
  | nil => intro _ a ha; simp at ha
  | cons c rest ih =>
    intro hp a ha
    rcases List.pairwise_cons.mp hp with ⟨hhead, htail⟩
    rcases List.mem_cons.mp ha with rfl | har
    · exact List.find?_cons_of_pos _ (by simp)
    · rw [List.find?_cons_of_neg _ (by simp [hhead a har])]
      exact ih htail a har

theorem le_start_of_span {α : Type} (f : α → WithTop ℤ) (sorted : List α) (total : ℕ)
    (hstrict : sorted.Pairwise (fun a b => f a < f b))
    (hfin : ∀ s ∈ sorted, ∃ n : ℤ, f s = ((n : ℤ) : WithTop ℤ))
    (a : α) (x : WithTop ℤ)
    (hspan : x ≤ resolvedEnd f a sorted total)
    (b : α) (hb : b ∈ sorted) (hbx : f b ≤ x) : f b ≤ f a := by
  by_contra hlt
  push_neg at hlt
  rcases find?_first_le f (f a) sorted hstrict b hb hlt with ⟨t, ht, htb⟩
  have hspan2 : x ≤ (f t).map (fun n => n - 1) := by
    have h0 : resolvedEnd f a sorted total = (f t).map (fun n => n - 1) := by
      rw [resolvedEnd, ht]
    rw [h0] at hspan
    exact hspan
  rcases hfin t (List.mem_of_find?_eq_some ht) with ⟨nt, hnt⟩
  rw [hnt] at hspan2 htb
  have hmap : ((((nt : ℤ) : WithTop ℤ)).map (fun n => n - 1)) =
      (((nt : ℤ) - 1 : ℤ) : WithTop ℤ) := rfl
  rw [hmap] at hspan2
  have hltnt : (((nt : ℤ) - 1 : ℤ) : WithTop ℤ) < ((nt : ℤ) : WithTop ℤ) := by
    rw [WithTop.coe_lt_coe]
    omega
  exact absurd (le_trans htb hbx) (not_le_of_lt (lt_of_le_of_lt hspan2 hltnt))

/-! ## Claim theorems -/

/-- C1: for a non-empty divider list with non-empty anchor sets, pairwise
distinct starts, a divider anchored at paragraph 0, and every anchor below
`totalParagraphs`, sorting by start and resolving each end with
`computeSegEnd` partitions `[0, totalParagraphs - 1]`: consecutive spans
are contiguous, spans of distinct positions do not overlap, the first span
starts at 0, the last ends at `totalParagraphs - 1`, and a paragraph index
is covered by some span exactly when it is below `totalParagraphs`. -/
theorem c1_partition (l : List Segment) (total : ℕ)
    (hne : l ≠ [])
    (hanch : ∀ s ∈ l, s.paragraphIndexes ≠ [])
    (hdist : l.Pairwise (fun a b => computeSegStart a ≠ computeSegStart b))
    (hzero : ∃ s ∈ l, 0 ∈ s.paragraphIndexes)
    (htot : ∀ s ∈ l, ∀ p ∈ s.paragraphIndexes, p < total) :
    (∀ (i : ℕ) (hi : i + 1 < (sortSegments l).length),
      computeSegEnd ((sortSegments l).get ⟨i, by omega⟩) (sortSegments l) total + 1 =
        computeSegStart ((sortSegments l).get ⟨i + 1, hi⟩)) ∧
    (∀ (i j : ℕ) (hj : j < (sortSegments l).length) (hij : i < j),
      computeSegEnd ((sortSegments l).get ⟨i, by omega⟩) (sortSegments l) total <
        computeSegStart ((sortSegments l).get ⟨j, hj⟩)) ∧
    (∀ h0 : 0 < (sortSegments l).length,
      computeSegStart ((sortSegments l).get ⟨0, h0⟩) = ((0 : ℤ) : WithTop ℤ)) ∧
    (∀ h0 : 0 < (sortSegments l).length,
      computeSegEnd ((sortSegments l).get ⟨(sortSegments l).length - 1, by omega⟩)
        (sortSegments l) total = (((total : ℤ) - 1 : ℤ) : WithTop ℤ)) ∧
    (∀ p : ℕ, p < total ↔ ∃ (i : ℕ) (hi : i < (sortSegments l).length),
      computeSegStart ((sortSegments l).get ⟨i, hi⟩) ≤ ((p : ℤ) : WithTop ℤ) ∧
      ((p : ℤ) : WithTop ℤ) ≤ computeSegEnd ((sortSegments l).get ⟨i, hi⟩)
        (sortSegments l) total) := by
  have hperm : (sortSegments l).Perm l :=
    List.perm_insertionSort (fun a b => computeSegStart a ≤ computeSegStart b) l
  have hstrict : (sortSegments l).Pairwise
      (fun a b => computeSegStart a < computeSegStart b) :=
    insertionSort_strict computeSegStart l hdist
  have hmem : ∀ s ∈ sortSegments l, s ∈ l := fun s hs => hperm.mem_iff.mp hs
  have hfin : ∀ s ∈ sortSegments l, ∃ n : ℕ, computeSegStart s = ((n : ℤ) : WithTop ℤ) ∧
      n ∈ s.paragraphIndexes ∧ ∀ q ∈ s.paragraphIndexes, n ≤ q :=
    fun s hs => minIdx_finite _ (hanch s (hmem s hs))
  have hfin2 : ∀ s ∈ sortSegments l, ∃ n : ℕ,
      computeSegStart s = ((n : ℤ) : WithTop ℤ) ∧ n < total := by
    intro s hs
    rcases hfin s hs with ⟨n, hn, hmemn, _⟩
    exact ⟨n, hn, htot s (hmem s hs) n hmemn⟩
  have hlen : 0 < (sortSegments l).length := by
    rw [hperm.length_eq]
    exact List.length_pos.mpr hne
  have hzero' : ∀ h0 : 0 < (sortSegments l).length,
      computeSegStart ((sortSegments l).get ⟨0, h0⟩) = ((0 : ℤ) : WithTop ℤ) := by
    intro h0
    rcases hzero with ⟨s0, hs0l, hs0z⟩
    have hs0m : s0 ∈ sortSegments l := hperm.mem_iff.mpr hs0l
    have hs0v : computeSegStart s0 = ((0 : ℤ) : WithTop ℤ) := minIdx_zero _ hs0z
    rcases List.mem_iff_get.mp hs0m with ⟨⟨k, hk⟩, hget⟩
    cases k with
    | zero => rw [← hget] at hs0v; exact hs0v
    | succ k =>
      exfalso
      have hlt := List.pairwise_iff_get.mp hstrict ⟨0, h0⟩ ⟨k + 1, hk⟩
        (by simp)
      rw [hget, hs0v] at hlt
      rcases hfin _ (List.get_mem _ 0 h0) with ⟨n, hn, _, _⟩
      rw [hn, WithTop.coe_lt_coe] at hlt
      omega
  refine ⟨?_, ?_, hzero', ?_, ?_⟩
  · intro i hi
    rw [computeSegEnd_sorted (sortSegments l) total hstrict i (by omega), dif_pos hi]
    rcases hfin _ (List.get_mem _ (i + 1) hi) with ⟨n, hn, _, _⟩
    rw [hn]
    have hmap : ((((n : ℤ) : WithTop ℤ)).map (fun t => t - 1)) =
        (((n : ℤ) - 1 : ℤ) : WithTop ℤ) := rfl
    rw [hmap, ← WithTop.coe_one, ← WithTop.coe_add]
    norm_num
  · intro i j hj hij
    rw [computeSegEnd_sorted (sortSegments l) total hstrict i (by omega),
      dif_pos (by omega : i + 1 < (sortSegments l).length)]
    rcases hfin _ (List.get_mem _ (i + 1) (by omega)) with ⟨n1, hn1, _, _⟩
    rcases hfin _ (List.get_mem _ j hj) with ⟨nj, hnj, _, _⟩
    rw [hn1, hnj]
    have hle : ((n1 : ℤ) : WithTop ℤ) ≤ ((nj : ℤ) : WithTop ℤ) := by
      rcases Nat.lt_or_ge (i + 1) j with h | h
      · have := List.pairwise_iff_get.mp hstrict ⟨i + 1, by omega⟩ ⟨j, hj⟩ h
        rw [hn1, hnj] at this
        exact le_of_lt this
      · have hij1 : i + 1 = j := by omega
        subst hij1
        rw [hn1] at hnj
        rw [hnj]
    rw [WithTop.coe_le_coe] at hle
    have hmap : ((((n1 : ℤ) : WithTop ℤ)).map (fun t => t - 1)) =
        (((n1 : ℤ) - 1 : ℤ) : WithTop ℤ) := rfl
    rw [hmap, WithTop.coe_lt_coe]
    omega
  · intro h0
    rw [computeSegEnd_sorted (sortSegments l) total hstrict _ (by omega),
      dif_neg (by omega : ¬ ((sortSegments l).length - 1 + 1 < (sortSegments l).length))]
  · intro p
    constructor
    · intro hp
      refine coverAux total (sortSegments l) hstrict
        (fun s hs => (hfin s hs).imp (fun n hn => hn.1)) p hp hlen ?_
      rw [hzero' hlen, WithTop.coe_le_coe]
      exact_mod_cast Int.natCast_nonneg p
    · rintro ⟨i, hi, _, h2⟩
      rw [computeSegEnd_sorted (sortSegments l) total hstrict i hi] at h2
      by_cases h : i + 1 < (sortSegments l).length
      · rw [dif_pos h] at h2
        rcases hfin2 _ (List.get_mem _ (i + 1) h) with ⟨n, hn, hnlt⟩
        rw [hn] at h2
        have hmap : ((((n : ℤ) : WithTop ℤ)).map (fun t => t - 1)) =
            (((n : ℤ) - 1 : ℤ) : WithTop ℤ) := rfl
        rw [hmap, WithTop.coe_le_coe] at h2
        omega
      · rw [dif_neg h, WithTop.coe_le_coe] at h2
        omega

/-- Witness for C1: two segments anchored `[0]` and `[25]`, 50 paragraphs. -/
theorem c1_partition_witness :
    (∀ (i : ℕ) (hi : i + 1 < (sortSegments [⟨1, "", [0], none⟩, ⟨2, "", [25], none⟩]).length),
      computeSegEnd ((sortSegments [⟨1, "", [0], none⟩, ⟨2, "", [25], none⟩]).get ⟨i, by omega⟩)
          (sortSegments [⟨1, "", [0], none⟩, ⟨2, "", [25], none⟩]) 50 + 1 =
        computeSegStart ((sortSegments [⟨1, "", [0], none⟩, ⟨2, "", [25], none⟩]).get
          ⟨i + 1, hi⟩)) ∧
    (∀ (i j : ℕ) (hj : j < (sortSegments [⟨1, "", [0], none⟩, ⟨2, "", [25], none⟩]).length)
        (hij : i < j),
      computeSegEnd ((sortSegments [⟨1, "", [0], none⟩, ⟨2, "", [25], none⟩]).get ⟨i, by omega⟩)
          (sortSegments [⟨1, "", [0], none⟩, ⟨2, "", [25], none⟩]) 50 <
        computeSegStart ((sortSegments [⟨1, "", [0], none⟩, ⟨2, "", [25], none⟩]).get ⟨j, hj⟩)) ∧
    (∀ h0 : 0 < (sortSegments [⟨1, "", [0], none⟩, ⟨2, "", [25], none⟩]).length,
      computeSegStart ((sortSegments [⟨1, "", [0], none⟩, ⟨2, "", [25], none⟩]).get ⟨0, h0⟩) =
        ((0 : ℤ) : WithTop ℤ)) ∧
    (∀ h0 : 0 < (sortSegments [⟨1, "", [0], none⟩, ⟨2, "", [25], none⟩]).length,
      computeSegEnd ((sortSegments [⟨1, "", [0], none⟩, ⟨2, "", [25], none⟩]).get
          ⟨(sortSegments [⟨1, "", [0], none⟩, ⟨2, "", [25], none⟩]).length - 1, by omega⟩)
        (sortSegments [⟨1, "", [0], none⟩, ⟨2, "", [25], none⟩]) 50 =
        (((50 : ℤ) - 1 : ℤ) : WithTop ℤ)) ∧
    (∀ p : ℕ, p < 50 ↔ ∃ (i : ℕ)
        (hi : i < (sortSegments [⟨1, "", [0], none⟩, ⟨2, "", [25], none⟩]).length),
      computeSegStart ((sortSegments [⟨1, "", [0], none⟩, ⟨2, "", [25], none⟩]).get ⟨i, hi⟩) ≤
        ((p : ℤ) : WithTop ℤ) ∧
      ((p : ℤ) : WithTop ℤ) ≤
        computeSegEnd ((sortSegments [⟨1, "", [0], none⟩, ⟨2, "", [25], none⟩]).get ⟨i, hi⟩)
          (sortSegments [⟨1, "", [0], none⟩, ⟨2, "", [25], none⟩]) 50) :=
  c1_partition [⟨1, "", [0], none⟩, ⟨2, "", [25], none⟩] 50 (by decide) (by decide)
    (by decide) (by decide) (by decide)

/-- C2: `computeSegEnd` returns `next.start - 1` for the first divider of
the sorted list whose start strictly exceeds this divider's start, and
`totalParagraphs - 1` when no such divider exists; with 50 paragraphs and
segments anchored at `[0]` and `[25]` the resolved spans are `[0, 24]` and
`[25, 49]`. -/
theorem c2_computeSegEnd_spec :
    (∀ (d : Segment) (sorted : List Segment) (total : ℕ) (nxt : Segment),
      sorted.find? (fun s => decide (computeSegStart d < computeSegStart s)) = some nxt →
      computeSegEnd d sorted total = (computeSegStart nxt).map (fun n => n - 1)) ∧
    (∀ (d : Segment) (sorted : List Segment) (total : ℕ),
      sorted.find? (fun s => decide (computeSegStart d < computeSegStart s)) = none →
      computeSegEnd d sorted total = (((total : ℤ) - 1 : ℤ) : WithTop ℤ)) ∧
    (computeSegStart ⟨1, "", [0], none⟩ = ((0 : ℤ) : WithTop ℤ) ∧
     computeSegEnd ⟨1, "", [0], none⟩
       (sortSegments [⟨1, "", [0], none⟩, ⟨2, "", [25], none⟩]) 50 = ((24 : ℤ) : WithTop ℤ) ∧
     computeSegStart ⟨2, "", [25], none⟩ = ((25 : ℤ) : WithTop ℤ) ∧
     computeSegEnd ⟨2, "", [25], none⟩
       (sortSegments [⟨1, "", [0], none⟩, ⟨2, "", [25], none⟩]) 50 = ((49 : ℤ) : WithTop ℤ)) := by
  refine ⟨?_, ?_, by decide⟩
  · intro d sorted total nxt h
    unfold computeSegEnd
    rw [h]
  · intro d sorted total h
    unfold computeSegEnd
    rw [h]

/-- Witness for C2 at concrete inputs. -/
theorem c2_computeSegEnd_spec_witness :
    computeSegEnd ⟨1, "", [0], none⟩ [⟨2, "", [25], none⟩] 50 =
      (computeSegStart ⟨2, "", [25], none⟩).map (fun n => n - 1) ∧
    computeSegEnd ⟨1, "", [0], none⟩ [] 7 = (((7 : ℤ) - 1 : ℤ) : WithTop ℤ) :=
  ⟨c2_computeSegEnd_spec.1 ⟨1, "", [0], none⟩ [⟨2, "", [25], none⟩] 50 ⟨2, "", [25], none⟩
     (by decide),
   c2_computeSegEnd_spec.2.1 ⟨1, "", [0], none⟩ [] 7 (by decide)⟩

/-- C6: creating a division at paragraph 10 in the empty structure yields
exactly two divisions, anchored `[10]` and `[0]`, each with a supporting
section and a supporting segment at the same indexes. -/
theorem c6_addDivision_from_empty :
    ((addDivision emptyState 10 false).divisions.length = 2 ∧
     (∃ d ∈ (addDivision emptyState 10 false).divisions, d.paragraphIndexes = [10]) ∧
     (∃ d ∈ (addDivision emptyState 10 false).divisions, d.paragraphIndexes = [0])) ∧
    (∀ d ∈ (addDivision emptyState 10 false).divisions,
      ∃ sec ∈ (addDivision emptyState 10 false).sections,
        sec.paragraphIndexes = d.paragraphIndexes ∧
        ∃ seg ∈ (addDivision emptyState 10 false).segments,
          seg.paragraphIndexes = d.paragraphIndexes ∧ seg.sectionId = some sec.id) := by
  decide

/-- C3 counterexample: sections at 0 and 10, divisions at 0 and 20, one
segment at 25 linked to the section at 10, 50 paragraphs. Every
well-formedness condition of the claim holds (each segment's `sectionId`
names the section whose resolved span contains its start, each section's
`divisionId` names the division whose resolved span contains its start,
starts and ids are pairwise distinct, anchors non-empty), yet the
id-linked grouping yields the division at 0 while the position-derived
grouping yields the division at 20. -/
theorem c3_counterexample :
    (∀ sg ∈ [(⟨1, "", [25], some 2⟩ : Segment)],
      ∃ sec ∈ [(⟨1, "", [0], some 1⟩ : Section), ⟨2, "", [10], some 1⟩],
        sg.sectionId = some sec.id ∧
        secStart sec ≤ computeSegStart sg ∧
        computeSegStart sg ≤ computeSecEnd sec
          (sortSections [⟨1, "", [0], some 1⟩, ⟨2, "", [10], some 1⟩]) 50) ∧
    (∀ sec ∈ [(⟨1, "", [0], some 1⟩ : Section), ⟨2, "", [10], some 1⟩],
      ∃ d ∈ [(⟨1, "", [0]⟩ : Division), ⟨2, "", [20]⟩],
        sec.divisionId = some d.id ∧
        divStart d ≤ secStart sec ∧
        secStart sec ≤ computeDivEnd d
          (sortDivisions [⟨1, "", [0]⟩, ⟨2, "", [20]⟩]) 50) ∧
    ([(⟨1, "", [0], some 1⟩ : Section), ⟨2, "", [10], some 1⟩].Pairwise
      (fun a b => secStart a ≠ secStart b)) ∧
    ([(⟨1, "", [0]⟩ : Division), ⟨2, "", [20]⟩].Pairwise
      (fun a b => divStart a ≠ divStart b)) ∧
    ([(⟨1, "", [0], some 1⟩ : Section), ⟨2, "", [10], some 1⟩].Pairwise
      (fun a b => a.id ≠ b.id)) ∧
    ([(⟨1, "", [0]⟩ : Division), ⟨2, "", [20]⟩].Pairwise (fun a b => a.id ≠ b.id)) ∧
    (∃ sg ∈ [(⟨1, "", [25], some 2⟩ : Segment)],
      idLinkedDivision [⟨1, "", [0], some 1⟩, ⟨2, "", [10], some 1⟩]
          [⟨1, "", [0]⟩, ⟨2, "", [20]⟩] sg ≠
        findDivisionForSegment (sortDivisions [⟨1, "", [0]⟩, ⟨2, "", [20]⟩])
          (computeSegStart sg)) := by
  decide

/-- C3 (amended): under the claim's well-formedness conditions plus the
condition that every division's start is also some section's start, the
id-linked grouping and the position-derived grouping agree on the section
and on the division of every segment. -/
theorem c3_groupings_agree (sections : List Section) (divisions : List Division)
    (segments : List Segment) (total : ℕ)
    (hsecdist : sections.Pairwise (fun a b => secStart a ≠ secStart b))
    (hdivdist : divisions.Pairwise (fun a b => divStart a ≠ divStart b))
    (hsecids : sections.Pairwise (fun a b => a.id ≠ b.id))
    (hdivids : divisions.Pairwise (fun a b => a.id ≠ b.id))
    (hsecne : ∀ sec ∈ sections, sec.paragraphIndexes ≠ [])
    (hdivne : ∀ d ∈ divisions, d.paragraphIndexes ≠ [])
    (hWFseg : ∀ sg ∈ segments, ∃ sec ∈ sections, sg.sectionId = some sec.id ∧
        secStart sec ≤ computeSegStart sg ∧
        computeSegStart sg ≤ computeSecEnd sec (sortSections sections) total)
    (hWFsec : ∀ sec ∈ sections, ∃ d ∈ divisions, sec.divisionId = some d.id ∧
        divStart d ≤ secStart sec ∧
        secStart sec ≤ computeDivEnd d (sortDivisions divisions) total)
    (hdivcov : ∀ d ∈ divisions, ∃ sec ∈ sections, secStart sec = divStart d) :
    ∀ sg ∈ segments,
      idLinkedSection sections sg =
        findSectionForSegment (sortSections sections) (computeSegStart sg) ∧
      idLinkedDivision sections divisions sg =
        findDivisionForSegment (sortDivisions divisions) (computeSegStart sg) := by
  have hsecstrict : (sortSections sections).Pairwise (fun a b => secStart a < secStart b) :=
    insertionSort_strict secStart sections hsecdist
  have hsecperm : (sortSections sections).Perm sections :=
    List.perm_insertionSort _ sections
  have hdivstrict : (sortDivisions divisions).Pairwise (fun a b => divStart a < divStart b) :=
    insertionSort_strict divStart divisions hdivdist
  have hdivperm : (sortDivisions divisions).Perm divisions :=
    List.perm_insertionSort _ divisions
  have hsecfin : ∀ s ∈ sortSections sections, ∃ n : ℤ, secStart s = ((n : ℤ) : WithTop ℤ) := by
    intro s hs
    rcases minIdx_finite s.paragraphIndexes (hsecne s (hsecperm.mem_iff.mp hs)) with
      ⟨n, hn, _, _⟩
    exact ⟨(n : ℤ), hn⟩
  have hdivfin : ∀ d ∈ sortDivisions divisions, ∃ n : ℤ, divStart d = ((n : ℤ) : WithTop ℤ) := by
    intro d hd
    rcases minIdx_finite d.paragraphIndexes (hdivne d (hdivperm.mem_iff.mp hd)) with
      ⟨n, hn, _, _⟩
    exact ⟨(n : ℤ), hn⟩
  intro sg hsg
  obtain ⟨S, hS, hlink, hSle, hSspan⟩ := hWFseg sg hsg
  have hidlink : idLinkedSection sections sg = some S := by
    rw [idLinkedSection, hlink]
    exact find?_id_unique Section.id sections hsecids S hS
  have hposS : findSectionForSegment (sortSections sections) (computeSegStart sg) = some S := by
    rw [findSectionForSegment]
    refine lastLE_eq secStart (computeSegStart sg) (sortSections sections) hsecstrict S
      (hsecperm.mem_iff.mpr hS) hSle ?_ none
    intro b hb hbx
    exact le_start_of_span secStart (sortSections sections) total hsecstrict hsecfin S
      (computeSegStart sg) hSspan b hb hbx
  obtain ⟨D, hD, hdlink, hDle, hDspan⟩ := hWFsec S hS
  have hidlinkD : idLinkedDivision sections divisions sg = some D := by
    rw [idLinkedDivision, hidlink]
    show S.divisionId.bind (fun did => divisions.find? (fun d => d.id == did)) = some D
    rw [hdlink]
    exact find?_id_unique Division.id divisions hdivids D hD
  have hposD : findDivisionForSegment (sortDivisions divisions) (computeSegStart sg) =
      some D := by
    rw [findDivisionForSegment]
    refine lastLE_eq divStart (computeSegStart sg) (sortDivisions divisions) hdivstrict D
      (hdivperm.mem_iff.mpr hD) (le_trans hDle hSle) ?_ none
    intro b hb hbx
    by_contra hbd
    push_neg at hbd
    rcases find?_first_le divStart (divStart D) (sortDivisions divisions) hdivstrict b hb hbd
      with ⟨t, ht, htb⟩
    have hDspan2 : secStart S ≤ (divStart t).map (fun n => n - 1) := by
      have h0 : computeDivEnd D (sortDivisions divisions) total =
          (divStart t).map (fun n => n - 1) := by
        rw [computeDivEnd, resolvedEnd, ht]
      rw [h0] at hDspan
      exact hDspan
    rcases hdivfin t (List.mem_of_find?_eq_some ht) with ⟨nt, hnt⟩
    rw [hnt] at hDspan2 htb
    have hmap : ((((nt : ℤ) : WithTop ℤ)).map (fun n => n - 1)) =
        (((nt : ℤ) - 1 : ℤ) : WithTop ℤ) := rfl
    rw [hmap] at hDspan2
    rcases hdivcov b (hdivperm.mem_iff.mp hb) with ⟨secB, hsecB, hsecBs⟩
    have h1 : secStart S < secStart secB := by
      rw [hsecBs]
      calc secStart S ≤ (((nt : ℤ) - 1 : ℤ) : WithTop ℤ) := hDspan2
        _ < ((nt : ℤ) : WithTop ℤ) := by rw [WithTop.coe_lt_coe]; omega
        _ ≤ divStart b := htb
    have h2 : secStart secB ≤ computeSegStart sg := by
      rw [hsecBs]
      exact hbx
    have h3 : secStart secB ≤ secStart S :=
      le_start_of_span secStart (sortSections sections) total hsecstrict hsecfin S
        (computeSegStart sg) hSspan secB (hsecperm.mem_iff.mpr hsecB) h2
    exact absurd h3 (not_le_of_lt h1)
  exact ⟨hidlink.trans hposS.symm, hidlinkD.trans hposD.symm⟩

/-- Witness for C3 (amended): one division, one section, one segment, all
anchored at paragraph 0, 10 paragraphs. -/
theorem c3_groupings_agree_witness :
    idLinkedSection [⟨1, "", [0], some 1⟩] ⟨1, "", [0], some 1⟩ =
      findSectionForSegment (sortSections [⟨1, "", [0], some 1⟩])
        (computeSegStart ⟨1, "", [0], some 1⟩) ∧
    idLinkedDivision [⟨1, "", [0], some 1⟩] [⟨1, "", [0]⟩] ⟨1, "", [0], some 1⟩ =
      findDivisionForSegment (sortDivisions [⟨1, "", [0]⟩])
        (computeSegStart ⟨1, "", [0], some 1⟩) :=
  c3_groupings_agree [⟨1, "", [0], some 1⟩] [⟨1, "", [0]⟩] [⟨1, "", [0], some 1⟩] 10
    (by decide) (by decide) (by decide) (by decide) (by decide) (by decide)
    (by decide) (by decide) (by decide) ⟨1, "", [0], some 1⟩
    (List.mem_singleton_self _)

/-- C4: `deleteSegment` removes every section left without foundation and
then every division left without walls, `deleteSection` removes every
division left without walls, and `deleteDivision` removes no section and
no segment. -/
theorem c4_delete_cascades (st : State) (segId secId divId : ℕ)
    (hseg : st.segments.any (fun s => s.id == segId) = true)
    (hsec : st.sections.any (fun s => s.id == secId) = true) :
    (∀ sec ∈ st.sections,
      sectionHasFoundation (deleteSegment st segId).segments sec = false →
      sec ∉ (deleteSegment st segId).sections) ∧
    (∀ d ∈ st.divisions,
      divisionHasWalls (deleteSegment st segId).sections d = false →
      d ∉ (deleteSegment st segId).divisions) ∧
    (∀ d ∈ st.divisions,
      divisionHasWalls (deleteSection st secId).sections d = false →
      d ∉ (deleteSection st secId).divisions) ∧
    (deleteDivision st divId).sections = st.sections ∧
    (deleteDivision st divId).segments = st.segments := by
  refine ⟨?_, ?_, ?_, rfl, rfl⟩
  · intro sec _ hf hmem
    rw [deleteSegment, if_pos hseg] at hmem hf
    simp only [cleanupDivisions, cleanupSections] at hmem hf
    rw [List.mem_filter] at hmem
    rw [hmem.2] at hf
    exact Bool.true_eq_false.mp hf
  · intro d _ hw hmem
    rw [deleteSegment, if_pos hseg] at hmem hw
    simp only [cleanupDivisions, cleanupSections] at hmem hw
    rw [List.mem_filter] at hmem
    rw [hmem.2] at hw
    exact Bool.true_eq_false.mp hw
  · intro d _ hw hmem
    rw [deleteSection, if_pos hsec] at hmem hw
    simp only [cleanupDivisions] at hmem hw
    rw [List.mem_filter] at hmem
    rw [hmem.2] at hw
    exact Bool.true_eq_false.mp hw

/-- Witness for C4: a one-division, one-section, one-segment state. -/
theorem c4_delete_cascades_witness :
    (∀ sec ∈ ([⟨1, "", [0], some 1⟩] : List Section),
      sectionHasFoundation
        (deleteSegment ⟨[], [⟨1, "", [0]⟩], [⟨1, "", [0], some 1⟩], [⟨1, "", [0], some 1⟩],
          ⟨1, 1, 1⟩⟩ 1).segments sec = false →
      sec ∉ (deleteSegment ⟨[], [⟨1, "", [0]⟩], [⟨1, "", [0], some 1⟩], [⟨1, "", [0], some 1⟩],
          ⟨1, 1, 1⟩⟩ 1).sections) ∧
    (∀ d ∈ ([⟨1, "", [0]⟩] : List Division),
      divisionHasWalls
        (deleteSegment ⟨[], [⟨1, "", [0]⟩], [⟨1, "", [0], some 1⟩], [⟨1, "", [0], some 1⟩],
          ⟨1, 1, 1⟩⟩ 1).sections d = false →
      d ∉ (deleteSegment ⟨[], [⟨1, "", [0]⟩], [⟨1, "", [0], some 1⟩], [⟨1, "", [0], some 1⟩],
          ⟨1, 1, 1⟩⟩ 1).divisions) ∧
    (∀ d ∈ ([⟨1, "", [0]⟩] : List Division),
      divisionHasWalls
        (deleteSection ⟨[], [⟨1, "", [0]⟩], [⟨1, "", [0], some 1⟩], [⟨1, "", [0], some 1⟩],
          ⟨1, 1, 1⟩⟩ 1).sections d = false →
      d ∉ (deleteSection ⟨[], [⟨1, "", [0]⟩], [⟨1, "", [0], some 1⟩], [⟨1, "", [0], some 1⟩],
          ⟨1, 1, 1⟩⟩ 1).divisions) ∧
    (deleteDivision ⟨[], [⟨1, "", [0]⟩], [⟨1, "", [0], some 1⟩], [⟨1, "", [0], some 1⟩],
        ⟨1, 1, 1⟩⟩ 1).sections = [⟨1, "", [0], some 1⟩] ∧
    (deleteDivision ⟨[], [⟨1, "", [0]⟩], [⟨1, "", [0], some 1⟩], [⟨1, "", [0], some 1⟩],
        ⟨1, 1, 1⟩⟩ 1).segments = [⟨1, "", [0], some 1⟩] :=
  c4_delete_cascades
    ⟨[], [⟨1, "", [0]⟩], [⟨1, "", [0], some 1⟩], [⟨1, "", [0], some 1⟩], ⟨1, 1, 1⟩⟩
    1 1 1 (by decide) (by decide)

/-- C7: every state reachable from the empty structure by the six public
operations keeps the anchor sets within each divider type pairwise
disjoint; creating a divider at an index already claimed by a same-type
divider is a no-op; and two `addSegment(3)` calls leave exactly one
segment anchored at 3. -/
theorem c7_anchor_disjointness :
    (∀ ops : List Op, StateDisjoint (run ops emptyState)) ∧
    (∀ (st : State) (p : ℕ),
      st.segments.any (fun s => s.paragraphIndexes.contains p) = true →
      addSegment st p false = st) ∧
    (∀ (st : State) (p : ℕ),
      st.sections.any (fun s => s.paragraphIndexes.contains p) = true →
      addSection st p false none false = st) ∧
    (∀ (st : State) (p : ℕ),
      st.divisions.any (fun d => d.paragraphIndexes.contains p) = true →
      addDivision st p false = st) ∧
    run [.addSeg 3, .addSeg 3] emptyState = run [.addSeg 3] emptyState ∧
    ((run [.addSeg 3, .addSeg 3] emptyState).segments.filter
        (fun s => s.paragraphIndexes.contains 3)).length = 1 := by
  refine ⟨fun ops => run_disjoint ops emptyState emptyState_disjoint, ?_, ?_, ?_,
    by decide, by decide⟩
  · intro st p hg
    rw [addSegment]
    simp only [Bool.false_eq_true, if_false]
    rw [if_pos hg]
  · intro st p hg
    rw [addSection]
    simp only [Bool.false_eq_true, if_false]
    rw [if_pos hg]
  · intro st p hg
    rw [addDivision]
    simp only [Bool.false_eq_true, if_false]
    rw [if_pos hg]

/-- Witness for C7: the invariant after a concrete run, and concrete no-op
creations at a claimed index. -/
theorem c7_anchor_disjointness_witness :
    StateDisjoint (run [.addSeg 3, .addDiv 2] emptyState) ∧
    addSegment ⟨[], [], [], [⟨1, "", [4], none⟩], ⟨0, 0, 1⟩⟩ 4 false =
      ⟨[], [], [], [⟨1, "", [4], none⟩], ⟨0, 0, 1⟩⟩ ∧
    addSection ⟨[], [], [⟨1, "", [4], none⟩], [], ⟨0, 1, 0⟩⟩ 4 false none false =
      ⟨[], [], [⟨1, "", [4], none⟩], [], ⟨0, 1, 0⟩⟩ ∧
    addDivision ⟨[], [⟨1, "", [4]⟩], [], [], ⟨1, 0, 0⟩⟩ 4 false =
      ⟨[], [⟨1, "", [4]⟩], [], [], ⟨1, 0, 0⟩⟩ :=
  ⟨c7_anchor_disjointness.1 [.addSeg 3, .addDiv 2],
   c7_anchor_disjointness.2.1 ⟨[], [], [], [⟨1, "", [4], none⟩], ⟨0, 0, 1⟩⟩ 4 (by decide),
   c7_anchor_disjointness.2.2.1 ⟨[], [], [⟨1, "", [4], none⟩], [], ⟨0, 1, 0⟩⟩ 4 (by decide),
   c7_anchor_disjointness.2.2.2.1 ⟨[], [⟨1, "", [4]⟩], [], [], ⟨1, 0, 0⟩⟩ 4 (by decide)⟩

/-- C9: when the natural heights (plus header) exceed the page budget, the
uniform scale factor yields per-row heights none of which exceeds its
natural height, and whose sum plus the header height equals the budget up
to the accumulated per-row rounding (half a pixel per row). -/
theorem c9_row_height_scaling (counts : List ℕ)
    (h : maxTableHeight < totalNaturalHeight counts) :
    (∀ c ∈ counts, ((rowHeight counts c : ℤ) : ℚ) ≤ naturalHeight c) ∧
    |(counts.map (fun c => ((rowHeight counts c : ℤ) : ℚ))).sum + headerHeight -
        maxTableHeight| ≤ counts.length / 2 := by
  have hgap : (0 : ℚ) < maxTableHeight - headerHeight := by
    rw [maxTableHeight, headerHeight]; norm_num
  have hdpos : (0 : ℚ) < totalNaturalHeight counts - headerHeight := by linarith
  have hs : heightScale counts =
      (maxTableHeight - headerHeight) / (totalNaturalHeight counts - headerHeight) := by
    rw [heightScale, if_pos h]
  have hs1 : heightScale counts ≤ 1 := by
    rw [hs]
    exact le_of_lt ((div_lt_one hdpos).mpr (by linarith))
  have hs0 : 0 ≤ heightScale counts := by
    rw [hs]
    exact div_nonneg (le_of_lt hgap) (le_of_lt hdpos)
  have hn0 : ∀ c : ℕ, 0 ≤ naturalHeight c := by
    intro c
    rw [naturalHeight, minRowHeight]
    exact le_trans (by norm_num) (le_max_left _ _)
  constructor
  · intro c _
    rw [rowHeight]
    have hx : naturalHeight c * heightScale counts ≤ ((max 40 ((c : ℤ) * 25) : ℤ) : ℚ) := by
      rw [← naturalHeight_intCast]
      exact mul_le_of_le_one_right (hn0 c) hs1
    calc ((round (naturalHeight c * heightScale counts) : ℤ) : ℚ)
        ≤ ((max 40 ((c : ℤ) * 25) : ℤ) : ℚ) := by exact_mod_cast round_le_intCast hx
      _ = naturalHeight c := (naturalHeight_intCast c).symm
  · have hNsum : (counts.map naturalHeight).sum = totalNaturalHeight counts - headerHeight := by
      rw [totalNaturalHeight]; ring
    have hXsum : (counts.map (fun c => naturalHeight c * heightScale counts)).sum =
        maxTableHeight - headerHeight := by
      rw [List.sum_map_mul_right, hNsum, hs]
      field_simp
    have herr := sum_round_err (counts.map (fun c => naturalHeight c * heightScale counts))
    rw [List.map_map, hXsum, List.length_map] at herr
    have hrw : (counts.map (fun c => ((rowHeight counts c : ℤ) : ℚ))).sum =
        (counts.map ((fun x => ((round x : ℤ) : ℚ)) ∘
          fun c => naturalHeight c * heightScale counts)).sum := by
      simp only [rowHeight, Function.comp_def]
    rw [hrw]
    calc |(counts.map ((fun x => ((round x : ℤ) : ℚ)) ∘
            fun c => naturalHeight c * heightScale counts)).sum + headerHeight -
            maxTableHeight|
        = |(counts.map ((fun x => ((round x : ℤ) : ℚ)) ∘
            fun c => naturalHeight c * heightScale counts)).sum -
            (maxTableHeight - headerHeight)| := by ring_nf
      _ ≤ counts.length / 2 := herr

/-- Witness for C9: four rows of ten paragraphs each (natural total 1040px
against the 880px budget). -/
theorem c9_row_height_scaling_witness :
    (∀ c ∈ [10, 10, 10, 10], ((rowHeight [10, 10, 10, 10] c : ℤ) : ℚ) ≤ naturalHeight c) ∧
    |([10, 10, 10, 10].map (fun c => ((rowHeight [10, 10, 10, 10] c : ℤ) : ℚ))).sum +
        headerHeight - maxTableHeight| ≤ ([10, 10, 10, 10] : List ℕ).length / 2 :=
  c9_row_height_scaling [10, 10, 10, 10] (by norm_num [totalNaturalHeight, naturalHeight,
    maxTableHeight, headerHeight, minRowHeight, heightPerParagraph])

/-- C5 counterexample: on a state whose sections already claim paragraph 5
but which has no segments, `addSection(5)` is a no-op, so no segment
anchored at 5 exists afterwards; the claim fails when quantified over
every state. -/
theorem c5_counterexample :
    ¬ ∃ sg ∈ (addSection ⟨[], [], [⟨1, "", [5], none⟩], [], ⟨0, 1, 0⟩⟩
        5 false none false).segments, 5 ∈ sg.paragraphIndexes := by
  decide

/-- C5 (amended): when neither the creation index nor paragraph 0 is
already claimed by a section, `addSection(p)` leaves a segment anchored at
`p` and a segment anchored at paragraph 0. -/
theorem c5_addSection_ensures_segments (st : State) (p : ℕ)
    (h1 : st.sections.any (fun s => s.paragraphIndexes.contains p) = false)
    (h2 : st.sections.any (fun s => s.paragraphIndexes.contains 0) = false) :
    (∃ sg ∈ (addSection st p false none false).segments, p ∈ sg.paragraphIndexes) ∧
    (∃ sg ∈ (addSection st p false none false).segments, 0 ∈ sg.paragraphIndexes) := by
  rw [addSection]
  simp only [Bool.false_eq_true, if_false, h1]
  by_cases hp : p = 0
  · subst hp
    simp only [ne_eq, not_true_eq_false, if_false]
    exact ⟨addSectionCore_exists_at st 0 none, addSectionCore_exists_at st 0 none⟩
  · rw [if_pos hp, addSectionRec,
      addSectionCore_cascade_guard st p none h2 hp]
    simp only [Bool.false_eq_true, if_false]
    constructor
    · exact addSectionCore_preserves _ 0 none p (addSectionCore_exists_at st p none)
    · exact addSectionCore_exists_at _ 0 none

/-- Witness for C5 (amended): the empty state at index 5. -/
theorem c5_addSection_ensures_segments_witness :
    (∃ sg ∈ (addSection emptyState 5 false none false).segments, 5 ∈ sg.paragraphIndexes) ∧
    (∃ sg ∈ (addSection emptyState 5 false none false).segments, 0 ∈ sg.paragraphIndexes) :=
  c5_addSection_ensures_segments emptyState 5 (by decide) (by decide)

/-- C8 counterexample: on a paragraph whose range `"1:1"` has no internal
en-dash, the `segmentMath.js` `humanRangeFromIdx(0, 0, ·)` returns the
doubled `"1:1–1:1"`, not the range unchanged. -/
theorem c8_counterexample :
    jsSplit "1:1" '–' = ["1:1"] ∧
    humanRangeFromIdx 0 0 [⟨"1:1", "", ""⟩] ≠ "1:1" ∧
    humanRangeFromIdx 0 0 [⟨"1:1", "", ""⟩] = "1:1–1:1" := by
  decide

/-- C8 (amended): when `startIdx = endIdx = i` is in bounds and the range
has no internal en-dash, the `previewPage.js` `humanRangeFromIdx` returns
`paragraphs[i].range` unchanged, while the `segmentMath.js` variant
returns the range joined to itself with an en-dash. -/
theorem c8_single_range (paragraphs : List Paragraph) (i : ℕ) (sp : Paragraph)
    (hget : paragraphs.get? i = some sp)
    (hnosep : jsSplit sp.range '–' = [sp.range]) :
    previewHumanRangeFromIdx i i paragraphs = sp.range ∧
    humanRangeFromIdx i i paragraphs = sp.range ++ "–" ++ sp.range := by
  constructor
  · simp only [previewHumanRangeFromIdx, hget]
    simp
  · simp only [humanRangeFromIdx, hget]
    simp [hnosep]

/-- C10: after `addDivision(p)` (p nonzero) on the empty structure, the
section anchored `[0]` links to the division anchored `[p]`, no section
links to the division anchored `[0]`, and on the segment starting at 0 the
id-linked grouping yields the division at `[p]` while the position-derived
grouping yields the division at `[0]`. -/
theorem c10_dual_grouping_divergence (p : ℕ) (hp : p ≠ 0) :
    ∃ ddiv ∈ (addDivision emptyState p false).divisions, ddiv.paragraphIndexes = [p] ∧
    ∃ dzero ∈ (addDivision emptyState p false).divisions, dzero.paragraphIndexes = [0] ∧
      (∀ sec ∈ (addDivision emptyState p false).sections,
        0 ∈ sec.paragraphIndexes → sec.divisionId = some ddiv.id) ∧
      (∀ sec ∈ (addDivision emptyState p false).sections,
        sec.divisionId ≠ some dzero.id) ∧
      (∀ sg ∈ (addDivision emptyState p false).segments, 0 ∈ sg.paragraphIndexes →
        idLinkedDivision (addDivision emptyState p false).sections
            (addDivision emptyState p false).divisions sg = some ddiv ∧
        findDivisionForSegment (sortDivisions (addDivision emptyState p false).divisions)
            (computeSegStart sg) = some dzero ∧
        ddiv ≠ dzero) := by
  have hnle : ¬ (((p : ℤ) : WithTop ℤ) ≤ ((0 : ℤ) : WithTop ℤ)) := by
    rw [WithTop.coe_le_coe]
    omega
  rw [addDivision_empty_eq p hp]
  refine ⟨⟨1, "", [p]⟩, by simp, rfl, ⟨2, "", [0]⟩, by simp, rfl, ?_, ?_, ?_⟩
  · intro sec hsec _
    rcases List.mem_cons.mp hsec with h | h
    · rw [h]
    · rw [List.mem_singleton.mp h]
  · intro sec hsec
    rcases List.mem_cons.mp hsec with h | h
    · rw [h]; simp
    · rw [List.mem_singleton.mp h]; simp
  · intro sg hsg h0
    rcases List.mem_cons.mp hsg with h | h
    · rw [h] at h0
      simp only [List.mem_singleton] at h0
      exact absurd h0.symm hp
    · rw [List.mem_singleton.mp h]
      refine ⟨by simp [idLinkedDivision, idLinkedSection], ?_, by simp⟩
      simp [findDivisionForSegment, sortDivisions, List.insertionSort, List.orderedInsert,
        lastLE, divStart, computeSegStart, minIdx_singleton, hnle, hp]

/-- Witness for C10 at `p = 7`. -/
theorem c10_dual_grouping_divergence_witness :
    ∃ ddiv ∈ (addDivision emptyState 7 false).divisions, ddiv.paragraphIndexes = [7] ∧
    ∃ dzero ∈ (addDivision emptyState 7 false).divisions, dzero.paragraphIndexes = [0] ∧
      (∀ sec ∈ (addDivision emptyState 7 false).sections,
        0 ∈ sec.paragraphIndexes → sec.divisionId = some ddiv.id) ∧
      (∀ sec ∈ (addDivision emptyState 7 false).sections,
        sec.divisionId ≠ some dzero.id) ∧
      (∀ sg ∈ (addDivision emptyState 7 false).segments, 0 ∈ sg.paragraphIndexes →
        idLinkedDivision (addDivision emptyState 7 false).sections
            (addDivision emptyState 7 false).divisions sg = some ddiv ∧
        findDivisionForSegment (sortDivisions (addDivision emptyState 7 false).divisions)
            (computeSegStart sg) = some dzero ∧
        ddiv ≠ dzero) :=
  c10_dual_grouping_divergence 7 (by decide)

/-- Witness for C8 (amended) at `range = "1:1"`. -/
theorem c8_single_range_witness :
    previewHumanRangeFromIdx 0 0 [⟨"1:1", "", ""⟩] = "1:1" ∧
    humanRangeFromIdx 0 0 [⟨"1:1", "", ""⟩] = "1:1" ++ "–" ++ "1:1" :=
  c8_single_range [⟨"1:1", "", ""⟩] 0 ⟨"1:1", "", ""⟩ rfl (by decide)

end SBS
